import Mathlib

/-!
# Verification of the `rust-todo-list` repository (src/lib.rs)

Shallow embedding of the two storage subsystems of the repository:

* the **Relational Task Store** (`Todo` + SQLite table `todo`, operations
  `add` / `list` / `toggle` / `reset` / `rm`, plus the CLI formatting helper
  `truncate_at`), and
* the **In-Memory Task Service** (`Todo2` in a `HashMap<Uuid, Todo2>` behind
  an `RwLock`, HTTP handlers `todos_index` / `todos_create` / `todos_update`
  / `todos_delete`).

The SQLite table is modelled as a list of rows; `SELECT ... ORDER BY` is
modelled by sorting the rows with the corresponding total order.  The
`HashMap` is modelled as an association list whose order stands for the map's
iteration order: `insert` overwrites the value of an existing key in place and
appends a fresh key, `remove` filters the key out, `values()` is the list of
second components.  SQL `NUMERIC`/`INTEGER` values are modelled as `Int`
(SQL arithmetic such as `1 - is_done` is signed, not truncated).
-/

namespace TodoList

/-! ## Relational task store: data model -/

/-- A row of the SQLite table `todo` (struct `Todo` in `src/lib.rs`):
`id INTEGER PRIMARY KEY AUTOINCREMENT`, `name TEXT`, `date_added REAL`
(held as a string by the Rust struct), `is_done NUMERIC`. -/
structure Todo where
  id : Int
  name : String
  date_added : String
  is_done : Int
  deriving DecidableEq, Repr

/-- The SQL ordering `ORDER BY is_done, id` used by `Todo::list` when
`sort_by_status` is true: lexicographic on the completion flag, then id. -/
def orderByIsDoneId (a b : Todo) : Prop :=
  a.is_done < b.is_done ∨ (a.is_done = b.is_done ∧ a.id ≤ b.id)

/-- The SQL ordering `ORDER BY id` used by `Todo::list` when
`sort_by_status` is false. -/
def orderById (a b : Todo) : Prop :=
  a.id ≤ b.id

instance : DecidableRel orderByIsDoneId := fun a b =>
  inferInstanceAs (Decidable (_ ∨ _))

instance : DecidableRel orderById := fun a b =>
  inferInstanceAs (Decidable (_ ≤ _))

instance : IsTotal Todo orderByIsDoneId :=
  ⟨fun a b => by unfold orderByIsDoneId; omega⟩

instance : IsTrans Todo orderByIsDoneId :=
  ⟨fun a b c hab hbc => by
    unfold orderByIsDoneId at hab hbc ⊢; omega⟩

instance : IsTotal Todo orderById :=
  ⟨fun a b => by unfold orderById; omega⟩

instance : IsTrans Todo orderById :=
  ⟨fun a b c hab hbc => by unfold orderById at hab hbc ⊢; omega⟩

namespace Todo

/-- Function `Todo::list(conn, sort_by_status)`: `SELECT * FROM todo ORDER BY is_done, id`
when `sort_by_status`, else `SELECT * FROM todo ORDER BY id`; materializes all
rows into a vector. -/
def list (db : List Todo) (sort_by_status : Bool) : List Todo :=
  if sort_by_status then
    List.insertionSort orderByIsDoneId db
  else
    List.insertionSort orderById db

/-- Function `Todo::toggle(conn, id)`: `UPDATE todo SET is_done = 1 - is_done WHERE id = ?`. -/
def toggle (db : List Todo) (id : Int) : List Todo :=
  db.map fun t => if t.id = id then { t with is_done := 1 - t.is_done } else t

/-- Function `Todo::reset(conn)`: `DELETE FROM todo`. -/
def reset (_db : List Todo) : List Todo := []

/-- Function `Todo::rm(conn, id)`: `DELETE FROM todo WHERE id = ?`. -/
def rm (db : List Todo) (id : Int) : List Todo :=
  db.filter fun t => t.id ≠ id

end Todo

/-! ## Relational task store: state with id assignment

`Todo::add` runs `INSERT INTO todo (name) VALUES (?)`; the `id` column is
`INTEGER PRIMARY KEY AUTOINCREMENT`, so SQLite assigns ids 1, 2, 3, ... and
never reuses an id after deletion.  `date_added` defaults server-side to the
current timestamp, modelled as an arbitrary string supplied with the
operation.  We model the store state as the table rows together with the
next id the AUTOINCREMENT sequence will hand out. -/

structure DbState where
  nextId : Int
  rows : List Todo
  deriving DecidableEq, Repr

/-- The freshly created database: empty table, AUTOINCREMENT starts at 1. -/
def DbState.empty : DbState := ⟨1, []⟩

/-- A CLI-level mutation of the relational store (claim C4 concerns
sequences of `add` and `rm` calls). -/
inductive Op where
  | add (name : String) (now : String)
  | rm (id : Int)
  deriving DecidableEq, Repr

/-- One operation against the store.  `add` is
`INSERT INTO todo (name) VALUES (?)` with the server-assigned id and
timestamp and `is_done` defaulting to 0; `rm` is `Todo::rm`. -/
def DbState.step (st : DbState) : Op → DbState
  | .add name now =>
      { nextId := st.nextId + 1
        rows := st.rows ++ [⟨st.nextId, name, now, 0⟩] }
  | .rm id => { st with rows := Todo.rm st.rows id }

/-- Run a sequence of operations against the store. -/
def DbState.run (st : DbState) : List Op → DbState
  | [] => st
  | op :: ops => (st.step op).run ops

/-- Number of `add` calls in a sequence of operations. -/
def countAdds : List Op → Nat
  | [] => 0
  | .add _ _ :: ops => countAdds ops + 1
  | .rm _ :: ops => countAdds ops

/-- Number of removals that deleted an existing task, along a run started
from `st`: an `rm id` counts exactly when a row with that id is present at
the moment the removal executes. -/
def countEffRm (st : DbState) : List Op → Nat
  | [] => 0
  | op :: ops =>
      (match op with
       | .rm id => if st.rows.any fun t => t.id = id then 1 else 0
       | .add _ _ => 0) + countEffRm (st.step op) ops

/-! ## CLI formatting: `truncate_at`

`truncate_at(input: &str, max: i32)` compares the **byte** length of `input`
with `max as usize` and, when longer, takes the byte slice
`&input[..(max_len - 3)]` and appends `"..."`.  A Rust byte slice of a `&str`
panics when the end index is not a UTF-8 character boundary, so the function
is partial: we return `Option String`, `none` standing for the panic. -/

/-- The byte slice `&s[..n]` of a string, viewed as its character list:
`some` of the character prefix occupying exactly `n` UTF-8 bytes, or `none`
(the panic) when `n` is not a character boundary (including `n` past the
end of the string). -/
def byteSlice : List Char → Nat → Option (List Char)
  | _, 0 => some []
  | [], _ + 1 => none
  | c :: cs, n + 1 =>
      if c.utf8Size ≤ n + 1 then
        (byteSlice cs (n + 1 - c.utf8Size)).map (c :: ·)
      else
        none

/-- Function `truncate_at` from `src/lib.rs`: if the byte length of `input` exceeds
`max as usize`, return the byte slice `&input[..(max_len - 3)]` with `"..."`
appended, else return the input unchanged.  The `i32`-to-`usize` cast is the
value of `max` modulo `2 ^ 64`; the byte slice may panic (`none`). -/
def truncate_at (input : String) (max : Int) : Option String :=
  let max_len : Nat := (max.emod (2 ^ 64)).toNat
  if input.utf8ByteSize > max_len then
    (byteSlice input.toList (max_len - 3)).map fun truncated =>
      String.mk truncated ++ "..."
  else
    some input

/-! ## In-memory task service: data model

The HTTP half of `src/lib.rs`: `Todo2` values in a
`Db = Arc<RwLock<HashMap<Uuid, Todo2>>>`.  `Uuid` is an opaque generated
identifier, modelled as `Nat`.  The `HashMap` is an association list whose
order is the map's iteration order. -/

/-- Opaque generated identifier (`uuid::Uuid`). -/
abbrev Uuid := Nat

/-- Struct `Todo2` of the HTTP service: `id: Uuid`, `text: String`, `completed: bool`. -/
structure Todo2 where
  id : Uuid
  text : String
  completed : Bool
  deriving DecidableEq, Repr

/-- The shared map `HashMap<Uuid, Todo2>`, as an association list in
iteration order. -/
abbrev Db := List (Uuid × Todo2)

namespace Db

/-- Operation `HashMap::get(&id).cloned()`. -/
def lookup : Db → Uuid → Option Todo2
  | [], _ => none
  | (k, v) :: rest, id => if k = id then some v else lookup rest id

/-- Operation `HashMap::insert(k, v)`: overwrite the value of an existing key in
place (at its position in the iteration order), add a fresh key at the
end. -/
def insert : Db → Uuid → Todo2 → Db
  | [], k, v => [(k, v)]
  | (k', v') :: rest, k, v =>
      if k' = k then (k, v) :: rest else (k', v') :: insert rest k v

/-- Operation `HashMap::remove(&k)` (the removal itself; the handler checks
`lookup` for the `is_some` of the returned option). -/
def remove (db : Db) (k : Uuid) : Db :=
  db.filter fun p => p.1 ≠ k

/-- Operation `HashMap::values()` in iteration order (`.cloned()` is the identity in
the model). -/
def values (db : Db) : List Todo2 :=
  db.map Prod.snd

end Db

/-- Relevant HTTP status codes (`axum::http::StatusCode`). -/
inductive StatusCode where
  | ok
  | created
  | noContent
  | notFound
  deriving DecidableEq, Repr

/-- Query parameters of `todos_index` (`struct Pagination`). -/
structure Pagination where
  offset : Option Nat := none
  limit : Option Nat := none
  deriving DecidableEq, Repr

/-- Constant `usize::MAX` on a 64-bit target, the `take` bound when `limit` is
absent. -/
def USIZE_MAX : Nat := 2 ^ 64 - 1

/-- Handler `todos_index(pagination, State(db))`: under the read lock, iterate the
map's values, `skip(offset.unwrap_or(0))`, `take(limit.unwrap_or(usize::MAX))`,
collect.  An absent query string is `Pagination::default()` (both fields
`None`). -/
def todos_index (db : Db) (pagination : Option Pagination) : List Todo2 :=
  let p := pagination.getD {}
  ((db.values.drop (p.offset.getD 0)).take (p.limit.getD USIZE_MAX))

/-- Handler `todos_create(State(db), Json(input))`: build a `Todo2` with a freshly
generated `Uuid` (passed here as the parameter `freshId`, `completed: false`),
insert it under the write lock at key `todo.id`, respond `201 CREATED` with
the task. -/
def todos_create (db : Db) (freshId : Uuid) (text : String) :
    (StatusCode × Todo2) × Db :=
  let todo : Todo2 := { id := freshId, text := text, completed := false }
  ((.created, todo), db.insert todo.id todo)

/-- Body of `PATCH /todos/{id}` (`struct UpdateTodo`): optional new text,
optional new completion flag. -/
structure UpdateTodo where
  text : Option String := none
  completed : Option Bool := none
  deriving DecidableEq, Repr

/-- The field edits of `todos_update`: overwrite `text` and `completed`
exactly when the request supplies them. -/
def applyUpdate (t : Todo2) (input : UpdateTodo) : Todo2 :=
  let t := match input.text with
    | some text => { t with text := text }
    | none => t
  match input.completed with
    | some completed => { t with completed := completed }
    | none => t

/-- Handler `todos_update(id, State(db), Json(input))` with both lock acquisitions
made explicit.  The handler first evaluates
`db.read().unwrap().get(&id).cloned().ok_or(NOT_FOUND)?` — a **read** lock
that is released at the end of that statement — and later
`db.write().unwrap().insert(todo.id, todo.clone())` — a separate **write**
lock.  `dbRead` is the map contents seen under the read lock and `dbWrite`
the contents found when the write lock is acquired; other writers may have
mutated the map in between, in which case `dbWrite ≠ dbRead`.  Returns the
response and the map contents after the write. -/
def todos_update_interleaved (dbRead dbWrite : Db) (id : Uuid)
    (input : UpdateTodo) : Except StatusCode Todo2 × Db :=
  match dbRead.lookup id with
  | none => (.error .notFound, dbWrite)
  | some todo =>
      let todo := applyUpdate todo input
      (.ok todo, dbWrite.insert todo.id todo)

/-- Handler `todos_update` as observed by a single request running without
interference: the read and the write see the same map contents. -/
def todos_update (db : Db) (id : Uuid) (input : UpdateTodo) :
    Except StatusCode Todo2 × Db :=
  match db.lookup id with
  | none => (.error .notFound, db)
  | some todo =>
      let todo := applyUpdate todo input
      (.ok todo, db.insert todo.id todo)

/-- Handler `todos_delete(id, State(db))`: under the write lock, remove the key;
respond `204 NO_CONTENT` when a task was present, `404 NOT_FOUND`
otherwise. -/
def todos_delete (db : Db) (id : Uuid) : StatusCode × Db :=
  if (db.lookup id).isSome then
    (.noContent, db.remove id)
  else
    (.notFound, db)

/-! ## Invariants, reachability and example data -/

/-- The key/value coherence invariant of the in-memory map: every entry's
stored task carries the key it is filed under as its `id`. -/
def MapInv (db : Db) : Prop := ∀ p ∈ db, p.2.id = p.1

/-- The map states reachable by the In-Memory Task Service: the empty map
at process start, followed by any sequence of create / update / delete
handler executions. -/
inductive Reachable : Db → Prop where
  | init : Reachable []
  | create (db : Db) (freshId : Uuid) (text : String) :
      Reachable db → Reachable (todos_create db freshId text).2
  | update (db : Db) (id : Uuid) (input : UpdateTodo) :
      Reachable db → Reachable (todos_update db id input).2
  | delete (db : Db) (id : Uuid) :
      Reachable db → Reachable (todos_delete db id).2

/-- Invariant of the states reachable by `add`/`rm` from the fresh
relational database: rows in strictly ascending id order (SQLite appends
with the AUTOINCREMENT id) and all ids below the next id to be assigned. -/
def goodState (st : DbState) : Prop :=
  st.rows.Pairwise (fun a b => a.id < b.id) ∧ ∀ t ∈ st.rows, t.id < st.nextId

/-- The relational store after adding three tasks named "A", "B", "C" to
the fresh database (with arbitrary server timestamps): the worked example
of the spec for `list(true)`. -/
def rows3 : List Todo :=
  ((((DbState.empty.step (Op.add ("A") ("d1"))).step
      (Op.add ("B") ("d2"))).step (Op.add ("C") ("d3"))).rows)

/-- A sample stored task of the in-memory service. -/
def exTask : Todo2 := { id := 0, text := "a", completed := false }

/-- A one-task map: `exTask` filed under its id. -/
def exDb : Db := [(0, exTask)]

/-- A partial update supplying only the completion flag. -/
def exInput : UpdateTodo := { completed := some true }

/-! ## Helper lemmas about the map operations -/

namespace Db

theorem lookup_insert_self (db : Db) (k : Uuid) (v : Todo2) :
    lookup (insert db k v) k = some v := by
  induction db with
  | nil => simp [insert, lookup]
  | cons p rest ih =>
    obtain ⟨k', v'⟩ := p
    by_cases hk : k' = k
    · simp [insert, hk, lookup]
    · simp only [insert, if_neg hk, lookup]
      exact ih

theorem lookup_insert_ne (db : Db) (k : Uuid) (v : Todo2) (k' : Uuid)
    (hk : k' ≠ k) :
    lookup (insert db k v) k' = lookup db k' := by
  induction db with
  | nil =>
    simp only [insert, lookup]
    rw [if_neg (fun h => hk h.symm)]
  | cons p rest ih =>
    obtain ⟨a, b⟩ := p
    by_cases ha : a = k
    · subst ha
      simp only [insert, if_pos rfl, lookup]
      rw [if_neg (fun h => hk h.symm), if_neg (fun h => hk h.symm)]
    · simp only [insert, if_neg ha, lookup]
      by_cases ha' : a = k'
      · rw [if_pos ha', if_pos ha']
      · rw [if_neg ha', if_neg ha']
        exact ih

theorem lookup_remove_self (db : Db) (k : Uuid) :
    lookup (remove db k) k = none := by
  induction db with
  | nil => rfl
  | cons p rest ih =>
    obtain ⟨a, b⟩ := p
    by_cases ha : a = k
    · simpa [remove, List.filter_cons, ha] using ih
    · simp only [remove, List.filter_cons] at ih ⊢
      simp [ha, lookup]
      simpa using ih

theorem lookup_remove_ne (db : Db) (k : Uuid) (k' : Uuid) (hk : k' ≠ k) :
    lookup (remove db k) k' = lookup db k' := by
  induction db with
  | nil => rfl
  | cons p rest ih =>
    obtain ⟨a, b⟩ := p
    by_cases ha : a = k
    · simp only [remove, List.filter_cons] at ih ⊢
      simp [ha, lookup]
      rw [if_neg (show ¬ k = k' from fun h => hk h.symm)]
      simpa using ih
    · simp only [remove, List.filter_cons] at ih ⊢
      simp [ha, lookup]
      by_cases ha' : a = k'
      · rw [if_pos ha', if_pos ha']
      · rw [if_neg ha', if_neg ha']
        simpa using ih

theorem lookup_mem (db : Db) (k : Uuid) (v : Todo2)
    (h : lookup db k = some v) : (k, v) ∈ db := by
  induction db with
  | nil => simp [lookup] at h
  | cons p rest ih =>
    obtain ⟨a, b⟩ := p
    by_cases ha : a = k
    · rw [lookup, if_pos ha] at h
      cases h
      simp [ha]
    · rw [lookup, if_neg ha] at h
      exact List.mem_cons_of_mem _ (ih h)

end Db

theorem mapInv_insert (db : Db) (k : Uuid) (v : Todo2) (hv : v.id = k) :
    MapInv db → MapInv (db.insert k v) := by
  induction db with
  | nil =>
    intro _ p hp
    simp only [Db.insert, List.mem_singleton] at hp
    simp [hp, hv]
  | cons q rest ih =>
    intro h
    obtain ⟨a, b⟩ := q
    have hhead : b.id = a := h (a, b) (List.mem_cons_self _ _)
    have htail : MapInv rest := fun p hp => h p (List.mem_cons_of_mem _ hp)
    by_cases ha : a = k
    · intro p hp
      simp only [Db.insert, if_pos ha, List.mem_cons] at hp
      rcases hp with rfl | hp
      · simp [hv]
      · exact htail p hp
    · intro p hp
      simp only [Db.insert, if_neg ha, List.mem_cons] at hp
      rcases hp with rfl | hp
      · exact hhead
      · exact ih htail p hp

theorem mapInv_remove (db : Db) (k : Uuid) (h : MapInv db) :
    MapInv (db.remove k) :=
  fun p hp => h p (List.mem_of_mem_filter hp)

/-! ## Unfolding equations of the HTTP handlers -/

theorem todos_update_eq_of_none (db : Db) (id : Uuid) (input : UpdateTodo)
    (ht : db.lookup id = none) :
    todos_update db id input = (Except.error StatusCode.notFound, db) := by
  simp only [todos_update]
  rw [ht]

theorem todos_update_eq_of_some (db : Db) (id : Uuid) (input : UpdateTodo)
    (t : Todo2) (ht : db.lookup id = some t) :
    todos_update db id input =
      (Except.ok (applyUpdate t input),
        db.insert (applyUpdate t input).id (applyUpdate t input)) := by
  simp only [todos_update]
  rw [ht]

theorem todos_update_interleaved_eq_of_some (dbRead dbWrite : Db)
    (id : Uuid) (input : UpdateTodo) (t : Todo2)
    (ht : dbRead.lookup id = some t) :
    todos_update_interleaved dbRead dbWrite id input =
      (Except.ok (applyUpdate t input),
        dbWrite.insert (applyUpdate t input).id (applyUpdate t input)) := by
  simp only [todos_update_interleaved]
  rw [ht]

theorem todos_delete_eq_of_some (db : Db) (id : Uuid)
    (ht : (db.lookup id).isSome = true) :
    todos_delete db id = (StatusCode.noContent, db.remove id) := by
  simp only [todos_delete]
  rw [if_pos ht]

theorem todos_delete_eq_of_none (db : Db) (id : Uuid)
    (ht : db.lookup id = none) :
    todos_delete db id = (StatusCode.notFound, db) := by
  simp only [todos_delete]
  rw [if_neg (by simp [ht])]

/-! ## Unfolding equations of `Todo::list` -/

theorem list_true (db : List Todo) :
    Todo.list db true = List.insertionSort orderByIsDoneId db := rfl

theorem list_false (db : List Todo) :
    Todo.list db false = List.insertionSort orderById db := rfl

/-! ## Helper lemmas about the relational store -/

/-- Membership in a `Todo::list` result is membership in the table. -/
theorem mem_list_iff (t : Todo) (db : List Todo) (b : Bool) :
    t ∈ Todo.list db b ↔ t ∈ db := by
  unfold Todo.list
  split <;> exact (List.perm_insertionSort _ db).mem_iff

theorem applyUpdate_id (t : Todo2) (input : UpdateTodo) :
    (applyUpdate t input).id = t.id := by
  unfold applyUpdate
  cases input.text <;> cases input.completed <;> simp

theorem applyUpdate_text (t : Todo2) (input : UpdateTodo) :
    (applyUpdate t input).text = input.text.getD t.text := by
  unfold applyUpdate
  cases input.text <;> cases input.completed <;> simp

theorem applyUpdate_completed (t : Todo2) (input : UpdateTodo) :
    (applyUpdate t input).completed = input.completed.getD t.completed := by
  unfold applyUpdate
  cases input.text <;> cases input.completed <;> simp

/-! ## Invariant of runs of the relational store -/

theorem goodState_empty : goodState DbState.empty := by
  constructor
  · exact List.Pairwise.nil
  · intro t ht
    simp [DbState.empty] at ht

theorem goodState_step (st : DbState) (op : Op) (h : goodState st) :
    goodState (st.step op) := by
  obtain ⟨hp, hb⟩ := h
  cases op with
  | add name now =>
    constructor
    · simp only [DbState.step]
      refine List.pairwise_append.mpr ⟨hp, List.pairwise_singleton _ _, ?_⟩
      intro a ha b hb'
      simp only [List.mem_singleton] at hb'
      subst hb'
      exact hb a ha
    · simp only [DbState.step]
      intro t ht
      rcases List.mem_append.mp ht with ht | ht
      · have := hb t ht
        omega
      · simp only [List.mem_singleton] at ht
        subst ht
        show st.nextId < st.nextId + 1
        omega
  | rm id =>
    constructor
    · simp only [DbState.step, Todo.rm]
      exact hp.sublist (List.filter_sublist _)
    · simp only [DbState.step, Todo.rm]
      intro t ht
      exact hb t (List.mem_of_mem_filter ht)

theorem goodState_run (ops : List Op) :
    ∀ st, goodState st → goodState (st.run ops) := by
  induction ops with
  | nil =>
    intro st h
    exact h
  | cons op ops ih =>
    intro st h
    exact ih _ (goodState_step st op h)

/-- An effective removal on a table with strictly increasing ids deletes
exactly one row. -/
theorem length_rm_of_any (rows : List Todo) (id : Int)
    (hp : rows.Pairwise fun a b => a.id < b.id)
    (hany : (rows.any fun t => t.id = id) = true) :
    (Todo.rm rows id).length + 1 = rows.length := by
  induction rows with
  | nil => simp at hany
  | cons t rest ih =>
    simp only [List.any_cons, Bool.or_eq_true, decide_eq_true_eq] at hany
    by_cases h : t.id = id
    · have hall : Todo.rm rest id = rest := by
        apply List.filter_eq_self.mpr
        intro u hu
        have := (List.pairwise_cons.mp hp).1 u hu
        simp only [decide_eq_true_eq]
        omega
      have hhead : Todo.rm (t :: rest) id = Todo.rm rest id := by
        simp only [Todo.rm, List.filter_cons]
        rw [if_neg (by simp [h])]
      rw [hhead, hall]
      simp
    · have hhead : Todo.rm (t :: rest) id = t :: Todo.rm rest id := by
        simp only [Todo.rm, List.filter_cons]
        rw [if_pos (by simp [h])]
      have hrest := ih (List.pairwise_cons.mp hp).2 (hany.resolve_left h)
      rw [hhead]
      simp only [List.length_cons]
      omega

/-- An ineffective removal leaves the table unchanged. -/
theorem rm_of_not_any (rows : List Todo) (id : Int)
    (hany : (rows.any fun t => t.id = id) = false) :
    Todo.rm rows id = rows := by
  apply List.filter_eq_self.mpr
  intro u hu
  simp only [List.any_eq_false, decide_eq_true_eq] at hany
  simp only [decide_eq_true_eq]
  exact hany u hu

/-- Row count along a run: each `add` contributes one row, each effective
removal deletes one. -/
theorem run_length (ops : List Op) :
    ∀ st, goodState st →
      (st.run ops).rows.length + countEffRm st ops =
        st.rows.length + countAdds ops := by
  induction ops with
  | nil =>
    intro st _
    simp [DbState.run, countEffRm, countAdds]
  | cons op ops ih =>
    intro st h
    cases op with
    | add name now =>
      have hrec := ih (st.step (Op.add name now)) (goodState_step _ _ h)
      have hlen : (st.step (Op.add name now)).rows.length = st.rows.length + 1 := by
        simp [DbState.step]
      simp only [DbState.run, countEffRm, countAdds]
      omega
    | rm id =>
      have hrec := ih (st.step (Op.rm id)) (goodState_step _ _ h)
      simp only [DbState.run, countEffRm, countAdds]
      by_cases hany : (st.rows.any fun t => t.id = id) = true
      · have hlen := length_rm_of_any st.rows id h.1 hany
        have hstep : (st.step (Op.rm id)).rows = Todo.rm st.rows id := by
          simp [DbState.step]
        rw [if_pos hany]
        rw [hstep] at hrec
        omega
      · have hrm := rm_of_not_any st.rows id (by simpa using hany)
        have hstep : (st.step (Op.rm id)).rows = st.rows := by
          simp [DbState.step, hrm]
        rw [if_neg hany]
        rw [hstep] at hrec
        omega

/-! ## The claims -/

/-- Claim C1, counterexample. The claim says `todos_update` performs its whole
read-modify-write under a single exclusive acquisition of the lock, so that
it is never interleaved with another writer.  In the code the read happens
under a `read()` lock that is released before a separate `write()` lock is
taken for the insert.  With a delete of the same id interleaved between the
two acquisitions, the final map equals neither serialization of the two
operations (update before delete, or delete before update): the interleaved
execution revives the deleted task, a lost update the claim rules out. -/
theorem C1_update_atomicity_counterexample :
    ¬ ((todos_update_interleaved exDb (todos_delete exDb 0).2 0 exInput).2 =
        (todos_delete (todos_update exDb 0 exInput).2 0).2 ∨
      (todos_update_interleaved exDb (todos_delete exDb 0).2 0 exInput).2 =
        (todos_update (todos_delete exDb 0).2 0 exInput).2) := by
  decide

/-- Claim C1, amended. `todos_update` reads the task under one (shared) lock
acquisition and writes under a second, separate exclusive acquisition.
When nothing interleaves, the two-phase execution coincides with the atomic
read-modify-write; but a writer may mutate the map between the two
acquisitions, and then the read-then-write is not atomic: a delete of the
same id interleaved between read and write is overwritten, so the updated
task is still in the final map. -/
theorem C1_update_two_phase (db : Db) (id : Uuid) (input : UpdateTodo)
    (t : Todo2) (hinv : MapInv db) (ht : db.lookup id = some t) :
    todos_update_interleaved db db id input = todos_update db id input ∧
    (todos_update_interleaved db (todos_delete db id).2 id input).2.lookup id =
      some (applyUpdate t input) := by
  constructor
  · rfl
  · have hid : t.id = id := hinv (id, t) (Db.lookup_mem db id t ht)
    have hkey : (applyUpdate t input).id = id := by rw [applyUpdate_id, hid]
    rw [todos_update_interleaved_eq_of_some _ _ id input t ht]
    rw [hkey]
    exact Db.lookup_insert_self _ id _

/-- Claim C1, amended, witness. The interleaved lost-delete behaviour at a
concrete one-task map. -/
theorem C1_update_two_phase_witness :
    todos_update_interleaved exDb exDb 0 exInput =
      todos_update exDb 0 exInput ∧
    (todos_update_interleaved exDb (todos_delete exDb 0).2 0 exInput).2.lookup 0 =
      some (applyUpdate exTask exInput) :=
  C1_update_two_phase exDb 0 exInput exTask (by unfold MapInv; decide) (by decide)

/-- Claim C2. `list(true)` (the `ORDER BY is_done, id` query) returns a
permutation of the table in which every pair of rows in order satisfies the
strict lexicographic order "smaller completion flag first, then smaller id":
hence every incomplete (flag 0) task precedes every completed (flag 1) task
and ids ascend within each group.  In particular, after adding "A", "B", "C"
and toggling the first task's id (which is 1), `list(true)` yields the tasks
named "B", "C", "A". -/
theorem C2_list_sorted_by_status (db : List Todo)
    (hids : db.Pairwise fun a b => a.id ≠ b.id) :
    (Todo.list db true).Perm db ∧
    (Todo.list db true).Pairwise
      (fun a b => a.is_done < b.is_done ∨ (a.is_done = b.is_done ∧ a.id < b.id)) ∧
    (Todo.list rows3 false).head?.map Todo.id = some 1 ∧
    (Todo.list (Todo.toggle rows3 1) true).map Todo.name = ["B", "C", "A"] := by
  have hperm := List.perm_insertionSort orderByIsDoneId db
  refine ⟨?_, ?_, by decide, by decide⟩
  · rw [list_true]
    exact hperm
  · have hsorted : (List.insertionSort orderByIsDoneId db).Pairwise
        orderByIsDoneId :=
      List.sorted_insertionSort orderByIsDoneId db
    have hne : (List.insertionSort orderByIsDoneId db).Pairwise
        (fun a b => a.id ≠ b.id) :=
      (hperm.pairwise_iff (fun h => h.symm)).mpr hids
    rw [list_true]
    refine (hsorted.and hne).imp ?_
    intro a b hab
    obtain ⟨hle, hne'⟩ := hab
    unfold orderByIsDoneId at hle
    omega

/-- Claim C2, witness. The sortedness statement evaluated at the three-task
example table. -/
theorem C2_witness :
    (Todo.list rows3 true).Perm rows3 ∧
    (Todo.list rows3 true).Pairwise
      (fun a b => a.is_done < b.is_done ∨ (a.is_done = b.is_done ∧ a.id < b.id)) ∧
    (Todo.list rows3 false).head?.map Todo.id = some 1 ∧
    (Todo.list (Todo.toggle rows3 1) true).map Todo.name = ["B", "C", "A"] :=
  C2_list_sorted_by_status rows3 (by decide)

/-- Claim C3. Toggling twice is the identity on the whole table — stronger
than the claim: the SQL `UPDATE todo SET is_done = 1 - is_done WHERE id = ?`
applied twice restores the toggled task's completion flag (`1 - (1 - d) = d`
in SQL's signed arithmetic) and leaves every other row untouched, for every
database state and id, existing or not. -/
theorem C3_toggle_toggle (db : List Todo) (id : Int) :
    Todo.toggle (Todo.toggle db id) id = db := by
  unfold Todo.toggle
  rw [List.map_map]
  conv_rhs => rw [← List.map_id db]
  apply List.map_congr_left
  intro t _
  obtain ⟨i, n, d, s⟩ := t
  by_cases h : i = id
  · simp [h]
  · simp [h]

/-- Claim C4. After any sequence of `add` and `rm` calls starting from the
fresh database, `list(false)` (the `ORDER BY id` query) returns the rows in
strictly ascending id order, and its length is the number of `add` calls
minus the number of removals that deleted an existing row. -/
theorem C4_run_sorted_count (ops : List Op) :
    (Todo.list (DbState.empty.run ops).rows false).Pairwise
      (fun a b => a.id < b.id) ∧
    (Todo.list (DbState.empty.run ops).rows false).length =
      countAdds ops - countEffRm DbState.empty ops := by
  have hg := goodState_run ops DbState.empty goodState_empty
  have hlen := run_length ops DbState.empty goodState_empty
  have hperm := List.perm_insertionSort orderById (DbState.empty.run ops).rows
  constructor
  · have hsorted : (List.insertionSort orderById
        (DbState.empty.run ops).rows).Pairwise orderById :=
      List.sorted_insertionSort orderById _
    have hne : (List.insertionSort orderById
        (DbState.empty.run ops).rows).Pairwise (fun a b => a.id ≠ b.id) :=
      (hperm.pairwise_iff (fun h => h.symm)).mpr
        (hg.1.imp (fun hab => by omega))
    rw [list_false]
    refine (hsorted.and hne).imp ?_
    intro a b hab
    obtain ⟨hle, hne'⟩ := hab
    unfold orderById at hle
    omega
  · rw [list_false, hperm.length_eq]
    have h0 : DbState.empty.rows.length = 0 := rfl
    omega

/-- Claim C5. After `rm(id)` no `list` result (sorted either way) contains a
task with that identifier; and removing an id that matches no row leaves
the table unchanged (the `DELETE ... WHERE id = ?` matches nothing), in
particular the row count is unchanged and no error is signalled. -/
theorem C5_rm_excludes (db : List Todo) (id : Int) :
    (∀ (b : Bool), ∀ t ∈ Todo.list (Todo.rm db id) b, t.id ≠ id) ∧
    ((∀ t ∈ db, t.id ≠ id) → Todo.rm db id = db) := by
  constructor
  · intro b t ht
    have hmem : t ∈ Todo.rm db id := (mem_list_iff t _ b).mp ht
    have hfil := List.of_mem_filter hmem
    simpa using hfil
  · intro h
    apply List.filter_eq_self.mpr
    intro t ht
    simpa using h t ht

/-- Claim C5, witness. Removing the absent id 5 from the three-task example
table is a no-op. -/
theorem C5_witness : Todo.rm rows3 5 = rows3 :=
  (C5_rm_excludes rows3 5).2 (by decide)

/-- Claim C6. If a task is stored under `id`, `todos_update(id, input)`
responds 200 with the task whose `text` and `completed` are overwritten
exactly when the request supplies them (and kept otherwise), re-inserts it
under `id`, and every other key's entry is unchanged.  The coherence
invariant `MapInv` (which holds in every reachable state, claim C10)
identifies the stored task's id with its key. -/
theorem C6_update_partial_fields (db : Db) (id : Uuid) (input : UpdateTodo)
    (t : Todo2) (hinv : MapInv db) (ht : db.lookup id = some t) :
    (todos_update db id input).1 = Except.ok (applyUpdate t input) ∧
    (applyUpdate t input).id = t.id ∧
    (applyUpdate t input).text = input.text.getD t.text ∧
    (applyUpdate t input).completed = input.completed.getD t.completed ∧
    (todos_update db id input).2.lookup id = some (applyUpdate t input) ∧
    (∀ k, k ≠ id → (todos_update db id input).2.lookup k = db.lookup k) := by
  have hid : t.id = id := hinv (id, t) (Db.lookup_mem db id t ht)
  have hkey : (applyUpdate t input).id = id := by rw [applyUpdate_id, hid]
  have hupd := todos_update_eq_of_some db id input t ht
  rw [hkey] at hupd
  refine ⟨by rw [hupd], applyUpdate_id t input, applyUpdate_text t input,
    applyUpdate_completed t input, ?_, ?_⟩
  · rw [hupd]
    exact Db.lookup_insert_self db id _
  · intro k hk
    rw [hupd]
    exact Db.lookup_insert_ne db id _ k hk

/-- Claim C6, witness. A PATCH supplying only `completed` at a one-task map:
the task is returned and re-stored with the new flag and unchanged text. -/
theorem C6_witness :
    (todos_update exDb 0 exInput).2.lookup 0 =
      some (applyUpdate exTask exInput) :=
  (C6_update_partial_fields exDb 0 exInput exTask
    (by unfold MapInv; decide) (by decide)).2.2.2.2.1

/-- Claim C7. `todos_update` and `todos_delete` on an id that is not in the
map respond 404 Not Found and leave the map unchanged; `todos_delete` on a
present id responds 204 No Content and removes exactly that entry, leaving
every other key's entry unchanged. -/
theorem C7_not_found_and_delete (db : Db) (id : Uuid) (input : UpdateTodo) :
    (db.lookup id = none →
      todos_update db id input = (Except.error StatusCode.notFound, db) ∧
      todos_delete db id = (StatusCode.notFound, db)) ∧
    (∀ t, db.lookup id = some t →
      (todos_delete db id).1 = StatusCode.noContent ∧
      (todos_delete db id).2.lookup id = none ∧
      ∀ k, k ≠ id → (todos_delete db id).2.lookup k = db.lookup k) := by
  constructor
  · intro h
    exact ⟨todos_update_eq_of_none db id input h, todos_delete_eq_of_none db id h⟩
  · intro t h
    have hsome : (db.lookup id).isSome = true := by rw [h]; rfl
    have hdel := todos_delete_eq_of_some db id hsome
    refine ⟨by rw [hdel], ?_, ?_⟩
    · rw [hdel]
      exact Db.lookup_remove_self db id
    · intro k hk
      rw [hdel]
      exact Db.lookup_remove_ne db id k hk

/-- Claim C7, witness. Update and delete against the empty map 404 and leave
it empty. -/
theorem C7_witness :
    todos_update [] 0 exInput = (Except.error StatusCode.notFound, ([] : Db)) ∧
    todos_delete [] 0 = (StatusCode.notFound, ([] : Db)) :=
  (C7_not_found_and_delete [] 0 exInput).1 rfl

/-- Claim C8. `todos_index` returns the map's values in iteration order,
skipping `offset` entries (0 when the query or the field is absent) and
taking at most `limit` entries — all remaining ones when `limit` is absent
(the `take usize::MAX` is the identity on any real map, whose size is at
most `usize::MAX`).  In particular `offset=1&limit=1` on any 3-entry map
returns exactly the second value. -/
theorem C8_index_pagination (db : Db) (off lim : Nat) :
    (db.length ≤ USIZE_MAX →
      todos_index db none = Db.values db ∧
      todos_index db (some { offset := some off }) = (Db.values db).drop off) ∧
    todos_index db (some { offset := some off, limit := some lim }) =
      ((Db.values db).drop off).take lim ∧
    (∀ (k1 k2 k3 : Uuid) (v1 v2 v3 : Todo2),
      todos_index [(k1, v1), (k2, v2), (k3, v3)]
        (some { offset := some 1, limit := some 1 }) = [v2]) := by
  have hvlen : (Db.values db).length = db.length := by
    simp [Db.values]
  refine ⟨fun hlen => ⟨?_, ?_⟩, ?_, ?_⟩
  · simp only [todos_index, Option.getD, List.drop_zero]
    apply List.take_of_length_le
    omega
  · simp only [todos_index, Option.getD]
    apply List.take_of_length_le
    rw [List.length_drop]
    omega
  · rfl
  · intro k1 k2 k3 v1 v2 v3
    rfl

/-- Claim C8, witness. The defaulted pagination on the empty map. -/
theorem C8_witness :
    todos_index ([] : Db) none = Db.values ([] : Db) ∧
    todos_index ([] : Db) (some { offset := some 0 }) =
      (Db.values ([] : Db)).drop 0 :=
  (C8_index_pagination [] 0 0).1 (by decide)

/-- Claim C9. `truncate_at` slices the UTF-8 byte sequence at byte index
`44 - 3 = 41`, which panics whenever byte 41 is not a character boundary:
on a task name of 15 euro signs (45 bytes, every boundary a multiple of 3)
the function does not return (`none` in the model).  On inputs where the
slice is defined it behaves as the claim says: names of more than 44 bytes
are cut to 41 bytes plus an ellipsis (44 in all), shorter names are
returned unchanged. -/
theorem C9_truncate_at_panics :
    truncate_at (String.mk (List.replicate 15 '€')) 44 = none ∧
    truncate_at (String.mk (List.replicate 50 'a')) 44 =
      some (String.mk (List.replicate 41 'a') ++ "...") ∧
    truncate_at ("hello") 44 = some ("hello") := by
  refine ⟨by decide, by decide, by decide⟩

/-- Claim C10. Every reachable map state of the In-Memory Task Service keys
each stored task by its own `id` field: the invariant holds in the initial
empty map and is preserved by `todos_create` (which inserts at `todo.id`
with `todo.id` the fresh uuid), `todos_update` (which re-inserts the
updated task at `todo.id`, the id being untouched by the field edits), and
`todos_delete`. -/
theorem C10_reachable_mapInv (db : Db) (h : Reachable db) : MapInv db := by
  induction h with
  | init =>
    intro p hp
    simp at hp
  | create db freshId text _ ih =>
    simp only [todos_create]
    exact mapInv_insert db freshId _ rfl ih
  | update db id input _ ih =>
    cases hl : db.lookup id with
    | none =>
      rw [todos_update_eq_of_none db id input hl]
      exact ih
    | some t =>
      rw [todos_update_eq_of_some db id input t hl]
      exact mapInv_insert db _ _ rfl ih
  | delete db id _ ih =>
    simp only [todos_delete]
    split
    · exact mapInv_remove db id ih
    · exact ih

/-- Claim C10, witness. The invariant at a concrete reachable state: the map
after one create on the empty map. -/
theorem C10_witness : MapInv (todos_create [] 5 ("x")).2 :=
  C10_reachable_mapInv _ (Reachable.create [] 5 ("x") Reachable.init)

end TodoList
